import Mathlib

/-!
Verification of the Relay pipeline/query/ontology engine against its
natural-language specification.  Each section shallowly embeds one part of
the source (src/src/utils.py, query.py, encryption.py, auth.py, storage.py,
routes/connections.py, semantic_query.py) as executable Lean definitions,
then proves or refutes the spec's claims about it.

Strings are modelled as `List Char` restricted to ASCII: Python's
`str.lower` / `str.isdigit` are Unicode-aware, but every name involved in
the claims is ASCII.
-/

namespace Relay

/-! ### ASCII character classes -/

def lowerAlpha : List Char :=
  ['a','b','c','d','e','f','g','h','i','j','k','l','m',
   'n','o','p','q','r','s','t','u','v','w','x','y','z']

def upperAlpha : List Char :=
  ['A','B','C','D','E','F','G','H','I','J','K','L','M',
   'N','O','P','Q','R','S','T','U','V','W','X','Y','Z']

def digitChars : List Char := ['0','1','2','3','4','5','6','7','8','9']

def isLowerAlpha (c : Char) : Bool := lowerAlpha.contains c
def isUpperAlpha (c : Char) : Bool := upperAlpha.contains c
def isDigitChar (c : Char) : Bool := digitChars.contains c

/-- ASCII lower-casing, the effect of Python `str.lower` on ASCII text. -/
def asciiLower : Char → Char
  | 'A' => 'a' | 'B' => 'b' | 'C' => 'c' | 'D' => 'd' | 'E' => 'e'
  | 'F' => 'f' | 'G' => 'g' | 'H' => 'h' | 'I' => 'i' | 'J' => 'j'
  | 'K' => 'k' | 'L' => 'l' | 'M' => 'm' | 'N' => 'n' | 'O' => 'o'
  | 'P' => 'p' | 'Q' => 'q' | 'R' => 'r' | 'S' => 's' | 'T' => 't'
  | 'U' => 'u' | 'V' => 'v' | 'W' => 'w' | 'X' => 'x' | 'Y' => 'y'
  | 'Z' => 'z'
  | c => c

/-- ASCII upper-casing, the effect of Python `str.upper` on ASCII text. -/
def asciiUpper : Char → Char
  | 'a' => 'A' | 'b' => 'B' | 'c' => 'C' | 'd' => 'D' | 'e' => 'E'
  | 'f' => 'F' | 'g' => 'G' | 'h' => 'H' | 'i' => 'I' | 'j' => 'J'
  | 'k' => 'K' | 'l' => 'L' | 'm' => 'M' | 'n' => 'N' | 'o' => 'O'
  | 'p' => 'P' | 'q' => 'Q' | 'r' => 'R' | 's' => 'S' | 't' => 'T'
  | 'u' => 'U' | 'v' => 'V' | 'w' => 'W' | 'x' => 'X' | 'y' => 'Y'
  | 'z' => 'Z'
  | c => c

/-- The effect of `.replace(" ", "_").replace("-", "_")`, character-wise. -/
def underscoreSpaces (c : Char) : Char := if c = ' ' ∨ c = '-' then '_' else c

/-- Characters kept by the regex substitution `re.sub(r"[^a-z0-9_]", "", ·)`. -/
def isAllowedChar (c : Char) : Bool := isLowerAlpha c || isDigitChar c || c = '_'

/-! ### `sanitize_table_name` (src/src/utils.py, lines 8-21) -/

/-- Function `sanitize_table_name`: lowercase, spaces and hyphens to underscores,
strip everything outside `[a-z0-9_]`, and prefix `t_` when the result
starts with a digit (guarded by the result being nonempty). -/
def sanitizeTableNameL (name : List Char) : List Char :=
  let t := ((name.map asciiLower).map underscoreSpaces).filter isAllowedChar
  match t with
  | [] => []
  | c :: _ => if isDigitChar c then 't' :: '_' :: t else t

def sanitize_table_name (name : String) : String :=
  ⟨sanitizeTableNameL name.data⟩

/-! ### Inline table-name derivation in the query engine
(src/src/query.py, lines 87-92).  Python computes
`pipeline["name"].replace(" ", "_").replace("-", "_").lower()` and then
prefixes `t_` when `table_name[0].isdigit()`; on an empty name the
subscript `table_name[0]` raises `IndexError`, modelled as `none`. -/

def queryTableNameL (name : List Char) : Option (List Char) :=
  let t := (name.map underscoreSpaces).map asciiLower
  match t with
  | [] => none
  | c :: _ => some (if isDigitChar c then 't' :: '_' :: t else t)

def queryTableName (name : String) : Option String :=
  (queryTableNameL name.data).map fun l => ⟨l⟩

/-- Characters on which the inline derivation of `query.py` and
`sanitize_table_name` can be compared: everything that survives the
regex strip of `sanitize_table_name` (after lower-casing and
underscore-replacement), i.e. ASCII letters, digits, `_`, space, `-`. -/
def goodChars : List Char :=
  ['a','b','c','d','e','f','g','h','i','j','k','l','m',
   'n','o','p','q','r','s','t','u','v','w','x','y','z',
   '0','1','2','3','4','5','6','7','8','9','_',' ','-',
   'A','B','C','D','E','F','G','H','I','J','K','L','M',
   'N','O','P','Q','R','S','T','U','V','W','X','Y','Z']

/-! ### LIMIT handling in `execute_query` (src/src/query.py, lines 104-107).
Python:
  limited_sql = sql
  if "LIMIT" not in sql.upper():
      limited_sql = f"{sql} LIMIT {limit}"
The membership test is a case-insensitive *substring* check. -/

def upperL (l : List Char) : List Char := l.map asciiUpper

/-- Python's substring operator `pat in s`. -/
def containsSub (pat : List Char) : List Char → Bool
  | [] => pat.isEmpty
  | c :: rest => pat.isPrefixOf (c :: rest) || containsSub pat rest

def limited_sql (sql : List Char) (limit : Nat) : List Char :=
  if containsSub ("LIMIT".data) (upperL sql) then sql
  else sql ++ (" LIMIT ".data ++ (Nat.repr limit).data)

/-- Whitespace-splitting of a character list (chunks between spaces,
empty chunks included), used to state what "the SQL contains a `LIMIT`
clause" means: some whitespace-delimited word is exactly `LIMIT`. -/
def splitOnSpace : List Char → List (List Char)
  | [] => [[]]
  | c :: rest =>
    if c = ' ' then [] :: splitOnSpace rest
    else
      match splitOnSpace rest with
      | [] => [[c]]
      | w :: ws => (c :: w) :: ws

/-- Spec-side reading of "the SQL contains a LIMIT clause": the upper-cased
SQL has `LIMIT` as a whitespace-delimited word. -/
def hasLimitWord (sql : List Char) : Prop :=
  "LIMIT".data ∈ splitOnSpace (upperL sql)

instance (sql : List Char) : Decidable (hasLimitWord sql) := by
  unfold hasLimitWord; infer_instance

/-! ### Crypto (src/src/encryption.py, lines 29-41) -/

inductive EncErr where
  /-- Raised as `ENCRYPTION_KEY not set` -/
  | keyMissing
  /-- Raised when the cipher reports `InvalidToken`, re-raised as `EncryptionError` -/
  | invalidToken
deriving DecidableEq

/-- Modelled from the spec: the cipher primitive is Fernet from the
`cryptography` package, which is external to this repository.  The spec
(§4.2) requires an authenticated symmetric scheme in which "each
encryption produces a distinct ciphertext for the same input (random IV)".
We model the Fernet token as `iv :: masked-plaintext ++ [tag]`: plaintext
bytes XOR-masked with a key-and-IV-derived keystream and closed with a
key-dependent tag, with the random IV made an explicit parameter. -/
def keystream (key iv i : Nat) : Nat := (key * 131 + iv * 257 + i * 31 + 7) % 256

def maskFrom (key iv : Nat) : Nat → List Nat → List Nat
  | _, [] => []
  | i, b :: rest => (b ^^^ keystream key iv i) :: maskFrom key iv (i + 1) rest

def fernetMac (key iv : Nat) (ct : List Nat) : Nat :=
  ct.foldl (fun a b => (a * 131 + b + 1) % 2 ^ 32) ((key + iv * 3) % 2 ^ 32)

def fernetEncrypt (key iv : Nat) (pt : List Nat) : List Nat :=
  let ct := maskFrom key iv 0 pt
  iv :: ct ++ [fernetMac key iv ct]

def fernetDecrypt (key : Nat) (token : List Nat) : Except EncErr (List Nat) :=
  match token with
  | [] => .error .invalidToken
  | iv :: rest =>
    match rest.getLast? with
    | none => .error .invalidToken
    | some tag =>
      let ct := rest.dropLast
      if fernetMac key iv ct = tag then .ok (maskFrom key iv 0 ct)
      else .error .invalidToken

/-- Function `encrypt` (encryption.py line 29): fails fast when no key is
configured (`_get_fernet` raises `EncryptionError`), else produces a
Fernet token of the plaintext under a fresh IV. -/
def encrypt (key : Option Nat) (iv : Nat) (pt : List Nat) :
    Except EncErr (List Nat) :=
  match key with
  | none => .error .keyMissing
  | some k => .ok (fernetEncrypt k iv pt)

/-- Function `decrypt` (encryption.py line 35): fails when no key is configured or
when the token does not authenticate (`InvalidToken`). -/
def decrypt (key : Option Nat) (token : List Nat) : Except EncErr (List Nat) :=
  match key with
  | none => .error .keyMissing
  | some k => fernetDecrypt k token

/-! ### Auth (src/src/auth.py, lines 23 and 89-117) -/

def ROLE_HIERARCHY : List (String × Nat) :=
  [("reader", 0), ("writer", 1), ("admin", 2)]

def roleLevelOf (r : String) : Option Nat :=
  (ROLE_HIERARCHY.find? (fun p => p.1 == r)).map (·.2)

/-- Python `ROLE_HIERARCHY.get(record.get("role", "reader"), 0)`: an unknown role
string falls back to level 0. -/
def roleLevelD (r : String) : Nat := (roleLevelOf r).getD 0

structure APIKeyRec where
  key_hash : String
  role : String
  active : Bool
deriving DecidableEq

/-- Modelled from the spec: `_hash_key` is SHA-256 from Python's `hashlib`,
an external primitive; modelled as an injective tagging function. -/
def hashKey (raw : String) : String := "sha256:" ++ raw

/-- Function `get_api_key_record`: the first stored key whose hash matches and which
is active (the SQL query filters on both and takes `.first()`). -/
def get_api_key_record (keys : List APIKeyRec) (raw : String) :
    Option APIKeyRec :=
  keys.find? (fun k => k.key_hash == hashKey raw && k.active)

inductive AuthResult where
  | ok (key : String)
  | err (status : Nat) (detail : String)
deriving DecidableEq

/-- The dependency returned by `require_role(min_role)`.  The outer lookup
`ROLE_HIERARCHY[min_role]` raises `KeyError` for an unknown role, modelled
as a 500; every call site passes a literal `"writer"` or `"admin"`. -/
def require_role (minRole : String) (requireAuth : Bool)
    (keys : List APIKeyRec) (header : Option String) : AuthResult :=
  match roleLevelOf minRole with
  | none => .err 500 "KeyError: unknown minimum role"
  | some minLevel =>
    if requireAuth = false then .ok "dev_mode"
    else
      match header with
      | none => .err 401 "Missing API key. Provide X-API-Key header."
      | some apiKey =>
        match get_api_key_record keys apiKey with
        | none => .err 403 "Invalid or revoked API key."
        | some record =>
          if roleLevelD record.role < minLevel then
            .err 403 ("Insufficient permissions. Requires '" ++ minRole
              ++ "' role or higher.")
          else .ok apiKey

/-! ### Run tracking (src/src/storage.py, lines 129-145; columns from
src/src/models.py `PipelineRun`).  Column values are modelled by a single
dynamic type `Val`, since `setattr` stores whatever the updates dict
carries.  `files_written` is a Python property backed by the
`files_written_json` column; the JSON serialization between the two is not
modelled, both appear as plain fields. -/

inductive Val where
  | vstr (s : String)
  | vnat (n : Nat)
  | vbool (b : Bool)
  | vlist (l : List String)
  | vnone
deriving DecidableEq

/-- The non-identifier columns of the `pipeline_runs` table, i.e. the
attribute names for which `hasattr(row, key)` holds in `update_run`
(besides the two primary identifiers, handled separately). -/
def runColumns : List String :=
  ["id", "status", "started_at", "completed_at", "progress", "streaming",
   "rows_processed", "chunks_processed", "output_file", "files_written",
   "files_written_json", "duration_seconds", "error", "traceback",
   "metadata_generated", "columns_needing_review", "ai_enhanced"]

/-- A run row: the two primary identifiers plus the dynamic attribute
store for the remaining columns (Python object attributes, read and
written by name). -/
structure Run where
  run_id : String
  pipeline_id : String
  cols : List (String × Val)
deriving DecidableEq

/-- Python `setattr(row, key, value)` on the attribute store. -/
def setAssoc : List (String × Val) → String → Val → List (String × Val)
  | [], k, v => [(k, v)]
  | (k', v') :: rest, k, v =>
    if k' = k then (k, v) :: rest else (k', v') :: setAssoc rest k v

/-- One iteration of `update_run`'s loop over `updates.items()`:
`files_written` is special-cased first, the primary identifiers are
skipped, any other existing attribute is assigned, and unknown keys
(`hasattr` false) are ignored. -/
def setRunField (r : Run) (key : String) (v : Val) : Run :=
  if key = "files_written" then { r with cols := setAssoc r.cols "files_written" v }
  else if key = "run_id" ∨ key = "pipeline_id" then r
  else if key ∈ runColumns then { r with cols := setAssoc r.cols key v }
  else r

/-- Reading a dynamically-typed column by name (for frame statements). -/
def runField (r : Run) (key : String) : Option Val :=
  (r.cols.find? (fun kv => kv.1 == key)).map (·.2)

def applyUpdates (r : Run) (updates : List (String × Val)) : Run :=
  updates.foldl (fun acc kv => setRunField acc kv.1 kv.2) r

/-- Function `update_run`: find the first run row matching `(pipeline_id, run_id)`,
apply the updates to it in place, and return its dict (`none` when no row
matches).  The second component is the store's run table after the call.
No check of the run's current status is performed. -/
def update_run : List Run → String → String → List (String × Val) →
    Option Run × List Run
  | [], _, _, _ => (none, [])
  | r :: rest, pid, rid, updates =>
    if r.pipeline_id = pid ∧ r.run_id = rid then
      let r' := applyUpdates r updates
      (some r', r' :: rest)
    else
      let res := update_run rest pid rid updates
      (res.1, r :: res.2)

/-- A concrete run row that has already reached the terminal `success`
status (used to refute the terminal-immutability claim). -/
def sampleTerminalRun : Run :=
  { run_id := "run-1"
    pipeline_id := "pipe-1"
    cols :=
      [("id", .vnat 1), ("status", .vstr "success"),
       ("started_at", .vstr "2024-01-01T00:00:00"),
       ("completed_at", .vstr "2024-01-01T00:01:00"),
       ("progress", .vstr "Completed"), ("streaming", .vbool false),
       ("rows_processed", .vnat 100), ("output_file", .vstr "out.parquet"),
       ("files_written_json", .vstr "[]"), ("duration_seconds", .vnat 60),
       ("metadata_generated", .vbool true),
       ("columns_needing_review", .vnat 0), ("ai_enhanced", .vbool false)] }

/-! ### Connection deletion (src/src/routes/connections.py, lines 80-96;
src/src/storage.py, lines 298-306).  Only the parts of the store the
endpoint reads are modelled: connections `(id, name)` and pipelines
`(id, name, source.get("connection"))`. -/

structure Connection where
  id : String
  name : String
deriving DecidableEq

structure Pipeline where
  id : String
  name : String
  /-- Python `source.get("connection")`: the connection name the pipeline's
  source config references, if any. -/
  source_connection : Option String
deriving DecidableEq

structure Store where
  connections : List Connection
  pipelines : List Pipeline
deriving DecidableEq

structure HTTPExc where
  status_code : Nat
  detail : String
deriving DecidableEq

/-- Function `list_pipelines_using_connection`: all pipelines whose source config
has `connection == connection_name`. -/
def list_pipelines_using_connection (pipelines : List Pipeline)
    (connName : String) : List Pipeline :=
  pipelines.filter (fun p => p.source_connection == some connName)

/-- Endpoint `DELETE /connection/(id)`: 404 when the id is unknown; 409 (and no
write) when any pipeline references the connection's name; otherwise the
connection row is deleted.  The Python 409 detail interpolates the Python
list repr of the pipeline names; we model it as the names joined by a
comma. -/
def delete_connection (st : Store) (connectionId : String) :
    Except HTTPExc String × Store :=
  match st.connections.find? (fun c => c.id == connectionId) with
  | none =>
    (.error ⟨404, "Connection '" ++ connectionId ++ "' not found"⟩, st)
  | some conn =>
    let pipelines := list_pipelines_using_connection st.pipelines conn.name
    if pipelines = [] then
      (.ok connectionId,
       { st with connections :=
          st.connections.filter (fun c => !(c.id == connectionId)) })
    else
      (.error ⟨409, "Cannot delete: connection is used by pipelines: "
        ++ String.intercalate ", " (pipelines.map (·.name))⟩, st)

/-! ### Join-graph construction in the semantic query engine
(src/src/semantic_query.py, lines 226-280, `_build_join_graph`).
`entity_names` is a Python set of touched entities (modelled as a list of
distinct names in iteration order); `entity_table_map` maps each of them
to its derived table alias (a dict subscript, modelled with a `""`
default that is never hit by the callers). -/

/-- The fields of a relationship row read by `_build_join_graph`. -/
structure Rel where
  from_entity : String
  to_entity : String
  from_column : String
  to_column : String
deriving DecidableEq

def lookupTable (tmap : List (String × String)) (e : String) : String :=
  ((tmap.find? (fun kv => kv.1 == e)).map (·.2)).getD ""

/-- The adjacency list `adj[e]`: every relationship with both endpoints in
the touched set is appended to `adj[from_entity]` and to
`adj[to_entity]` (twice for a self-loop), in relationship order. -/
def adjOf (entityNames : List String) (rels : List Rel) (e : String) :
    List Rel :=
  (rels.filter (fun r =>
      entityNames.contains r.from_entity && entityNames.contains r.to_entity)).foldl
    (fun acc r =>
      acc ++ (if r.from_entity = e then [r] else [])
          ++ (if r.to_entity = e then [r] else []))
    []

/-- Processing one relationship of `adj[current]` inside the BFS loop:
`st` is `(queue, visited, join_clauses)`. -/
def relStep (tmap : List (String × String)) (current : String)
    (st : List String × List String × List String) (r : Rel) :
    List String × List String × List String :=
  let queue := st.1
  let visited := st.2.1
  let clauses := st.2.2
  if r.from_entity = current ∧ r.to_entity ∉ visited then
    let fa := lookupTable tmap r.from_entity
    let ta := lookupTable tmap r.to_entity
    (queue ++ [r.to_entity], r.to_entity :: visited,
     clauses ++ ["LEFT JOIN " ++ ta ++ " ON " ++ fa ++ "." ++ r.from_column
       ++ " = " ++ ta ++ "." ++ r.to_column])
  else if r.to_entity = current ∧ r.from_entity ∉ visited then
    let fa := lookupTable tmap r.from_entity
    let ta := lookupTable tmap r.to_entity
    (queue ++ [r.from_entity], r.from_entity :: visited,
     clauses ++ ["LEFT JOIN " ++ fa ++ " ON " ++ fa ++ "." ++ r.from_column
       ++ " = " ++ ta ++ "." ++ r.to_column])
  else st

/-- The `while queue:` loop.  Each entity enters the queue at most once
(guarded by `visited`), so for a set of `n` touched entities the loop pops
at most `n` times; the fuel `entityNames.length + 1` therefore never runs
out on set-like input. -/
def bfsLoop (entityNames : List String) (rels : List Rel)
    (tmap : List (String × String)) :
    Nat → List String → List String → List String → List String
  | 0, _, _, clauses => clauses
  | _ + 1, [], _, clauses => clauses
  | fuel + 1, current :: queue, visited, clauses =>
    let st := (adjOf entityNames rels current).foldl (relStep tmap current)
      (queue, visited, clauses)
    bfsLoop entityNames rels tmap fuel st.1 st.2.1 st.2.2

inductive JoinErr where
  /-- Raised as `ValueError("No entities to query")` -/
  | noEntities
deriving DecidableEq

/-- Function `_build_join_graph`: empty touched set raises; a single touched entity
returns its table; otherwise BFS from the first touched entity over the
relationships with both endpoints touched, emitting one LEFT JOIN per
tree edge.  There is no reachability check after the BFS: entities never
reached contribute no join and no error. -/
def build_join_graph (entityNames : List String) (rels : List Rel)
    (tmap : List (String × String)) : Except JoinErr String :=
  match entityNames with
  | [] => .error .noEntities
  | [e] => .ok (lookupTable tmap e)
  | root :: _ =>
    let clauses := bfsLoop entityNames rels tmap (entityNames.length + 1)
      [root] [root] []
    let fromClause := lookupTable tmap root
    .ok (if clauses = [] then fromClause
         else fromClause ++ " " ++ String.intercalate " " clauses)

/-! ### Metric resolution (src/src/semantic_query.py, lines 185-204,
`_resolve_metric`).  The Python function walks `re.finditer` over the
*original* expression text, resolves each `${name}` reference recursively,
and replaces every occurrence of the matched token in the current
expression with the parenthesized resolved text.  The visited set `_seen`
is one mutable set shared by the entire recursion (the same object is
passed down), so a name is recorded permanently once visited, not only
while on the current expansion path. -/

def isWordChar (c : Char) : Bool :=
  isLowerAlpha c || isUpperAlpha c || isDigitChar c || c = '_'

/-- The matches of `re.finditer(r"\$\{(\w+)\}", expr)` in order: maximal
word-character runs wrapped in a dollar-brace pair, scanning left to
right, non-overlapping.  The fuel argument only bounds the scan position
(every recursive call consumes at least one character, so the wrapper's
`l.length + 1` never runs out); it makes the recursion structural. -/
def findTokensF : Nat → List Char → List (List Char)
  | 0, _ => []
  | _ + 1, [] => []
  | fuel + 1, '$' :: '{' :: rest =>
    let w := rest.takeWhile isWordChar
    let r2 := rest.dropWhile isWordChar
    if w ≠ [] ∧ r2.head? = some '}' then w :: findTokensF fuel r2.tail
    else findTokensF fuel ('{' :: rest)
  | fuel + 1, _ :: rest => findTokensF fuel rest

def findTokens (l : List Char) : List (List Char) :=
  findTokensF (l.length + 1) l

/-- Python `str.replace`: replace every non-overlapping occurrence of
`pat`, left to right.  The fuel argument again only makes the recursion
structural; each call consumes at least one character of `s`. -/
def replaceAllF : Nat → List Char → List Char → List Char → List Char
  | 0, s, _, _ => s
  | _ + 1, [], _, _ => []
  | fuel + 1, c :: rest, pat, rep =>
    if pat ≠ [] ∧ pat.isPrefixOf (c :: rest) then
      rep ++ replaceAllF fuel ((c :: rest).drop pat.length) pat rep
    else c :: replaceAllF fuel rest pat rep

def replaceAll (s pat rep : List Char) : List Char :=
  replaceAllF (s.length + 1) s pat rep

structure Metric where
  name : String
  expression : String
  entity_name : String
deriving DecidableEq

deriving instance DecidableEq for Except

inductive SemErr where
  /-- Raised as `ValueError` with message `Circular metric reference detected` -/
  | circular (name : String)
  /-- Raised as `ValueError` with message `Unknown metric` -/
  | unknownMetric (name : String)
  /-- artifact of the fuelled embedding; proved unreachable below -/
  | fuelOut
deriving DecidableEq

def lookupMetric (metrics : List Metric) (name : String) : Option Metric :=
  metrics.find? (fun m => m.name == name)

/-- Function `_resolve_metric(name, metrics_by_name, _seen)`.  Returns the resolved
expression, the owning entity and the final visited set.  The `fuel`
argument is an artifact of the embedding: the Python recursion terminates
because `_seen` grows strictly at each nested call, and
`resolve_no_fuel_out` below shows the fuel chosen by `resolve_metric`
never runs out.  The `for ref_match in re.finditer(...)` loop over the
tokens of the *original* expression is the fold: it threads the current
expression text and the shared visited set, aborting on the first
error. -/
def resolveMetricF : Nat → String → List Metric → List String →
    Except SemErr (String × String × List String)
  | 0, _, _, _ => .error .fuelOut
  | fuel + 1, name, metrics, seen =>
    if name ∈ seen then .error (.circular name)
    else
      match lookupMetric metrics name with
      | none => .error (.unknownMetric name)
      | some m =>
        match (findTokens m.expression.data).foldl
            (fun (acc : Except SemErr (List Char × List String))
                (t : List Char) =>
              match acc with
              | .error e => .error e
              | .ok (cur, sn) =>
                match resolveMetricF fuel ⟨t⟩ metrics sn with
                | .error e => .error e
                | .ok (texpr, _, sn2) =>
                  .ok (replaceAll cur ('$' :: '{' :: t ++ ['}'])
                        ('(' :: texpr.data ++ [')']), sn2))
            (.ok (m.expression.data, name :: seen)) with
        | .error e => .error e
        | .ok (expr, seen2) => .ok (⟨expr⟩, m.entity_name, seen2)

/-- The reference-loop of `resolveMetricF`, restated as plain recursion
over the token list (used to reason about the fold). -/
def resolveTokens (fuel : Nat) : List (List Char) → List Char →
    List Metric → List String → Except SemErr (List Char × List String)
  | [], cur, _, seen => .ok (cur, seen)
  | t :: ts, cur, metrics, seen =>
    match resolveMetricF fuel ⟨t⟩ metrics seen with
    | .error e => .error e
    | .ok (texpr, _, seen2) =>
      resolveTokens fuel ts
        (replaceAll cur ('$' :: '{' :: t ++ ['}']) ('(' :: texpr.data ++ [')']))
        metrics seen2

/-- The public entry: `_resolve_metric(name, metrics_by_name)` with a
fresh empty visited set.  Fuel `metrics.length + 1` is enough because each
nested call consumes a distinct metric key (shown in
`resolve_no_fuel_out`). -/
def resolve_metric (name : String) (metrics : List Metric) :
    Except SemErr (String × String) :=
  match resolveMetricF (metrics.length + 1) name metrics [] with
  | .error e => .error e
  | .ok (expr, ent, _) => .ok (expr, ent)

def metricKeys (metrics : List Metric) : List String :=
  (metrics.map (·.name)).dedup

/-- The number of metric names not yet visited (the quantity that shrinks
at every nested resolution step). -/
def freeKeys (metrics : List Metric) (seen : List String) : Nat :=
  ((metricKeys metrics).filter (fun k => decide (k ∉ seen))).length

/-- The `${...}` reference edges of a metric (names it mentions). -/
def metricRefs (metrics : List Metric) (name : String) : List String :=
  match lookupMetric metrics name with
  | none => []
  | some m => (findTokens m.expression.data).map (fun w => (⟨w⟩ : String))

/-- Reachability in at most `fuel` reference steps. -/
def reachesIn (metrics : List Metric) : Nat → String → String → Bool
  | 0, _, _ => false
  | fuel + 1, a, b =>
    (metricRefs metrics a).any (fun c => c == b || reachesIn metrics fuel c b)

/-- Spec-side notion for the claim: the `${other_metric}` reference graph
is acyclic, i.e. no metric name can reach itself (paths longer than the
number of metrics would repeat a node, so this fuel bound is exact). -/
def metricRefAcyclic (metrics : List Metric) : Bool :=
  (metricKeys metrics).all
    (fun k => !reachesIn metrics (metrics.length + 1) k k)

/-- A diamond-shaped but *acyclic* metric graph: `m` references `a` and
`b`, which both reference `c`. -/
def diamondMetrics : List Metric :=
  [⟨"m", "${a} + ${b}", "orders"⟩,
   ⟨"a", "${c} * 2", "orders"⟩,
   ⟨"b", "${c} + 1", "orders"⟩,
   ⟨"c", "SUM(orders.total)", "orders"⟩]

/-- The two-cycle of spec scenario S5: `a = ${b}`, `b = ${a}`. -/
def cyclePairMetrics : List Metric :=
  [⟨"a", "${b}", "orders"⟩, ⟨"b", "${a}", "orders"⟩]

/-- The composable metrics of spec scenario S4. -/
def aovMetrics : List Metric :=
  [⟨"revenue", "SUM(orders.total)", "orders"⟩,
   ⟨"order_count", "COUNT(*)", "orders"⟩,
   ⟨"aov", "${revenue} / NULLIF(${order_count}, 0)", "orders"⟩]

end Relay

/-! ## Claim theorems -/

/-- C5: the table-name derivation is a pure function with
`derive("My Pipeline") = "my_pipeline"`, `derive("2024 sales") = "t_2024_sales"`,
and `derive("users@v2!") = "usersv2"`. -/
theorem c5_sanitize_table_name_examples :
    Relay.sanitize_table_name "My Pipeline" = "my_pipeline" ∧
    Relay.sanitize_table_name "2024 sales" = "t_2024_sales" ∧
    Relay.sanitize_table_name "users@v2!" = "usersv2" := by
  refine ⟨?_, ?_, ?_⟩ <;> rfl

theorem goodChar_comm (c : Char) (h : c ∈ Relay.goodChars) :
    Relay.asciiLower (Relay.underscoreSpaces c)
      = Relay.underscoreSpaces (Relay.asciiLower c) ∧
    Relay.isAllowedChar (Relay.underscoreSpaces (Relay.asciiLower c)) = true := by
  fin_cases h <;> decide

/-- C6 counterexample: on the pipeline name `users@v2!` the inline view-name
computation of `execute_query` keeps the `@` and `!` (it never strips
non-alphanumerics), while `sanitize_table_name` removes them, so the two
derivations disagree. -/
theorem c6_query_table_name_counterexample :
    Relay.queryTableName "users@v2!" = some "users@v2!" ∧
    Relay.sanitize_table_name "users@v2!" = "usersv2" ∧
    Relay.queryTableName "users@v2!" ≠ some (Relay.sanitize_table_name "users@v2!") := by
  refine ⟨rfl, rfl, ?_⟩
  decide

/-- C6 (amended): for nonempty pipeline names all of whose characters are
ASCII letters, digits, underscores, spaces or hyphens — i.e. names on which
the regex strip of `sanitize_table_name` removes nothing — the inline
derivation of `execute_query` agrees with `sanitize_table_name`.  For other
names the two differ, because the inline version skips the strip step. -/
theorem c6_query_table_name_agrees (name : List Char) (h1 : name ≠ [])
    (h2 : ∀ c ∈ name, c ∈ Relay.goodChars) :
    Relay.queryTableNameL name = some (Relay.sanitizeTableNameL name) := by
  have hmap : (name.map Relay.underscoreSpaces).map Relay.asciiLower
      = (name.map Relay.asciiLower).map Relay.underscoreSpaces := by
    simp only [List.map_map]
    exact List.map_congr_left fun c hc => (goodChar_comm c (h2 c hc)).1
  have hfilter : ((name.map Relay.asciiLower).map Relay.underscoreSpaces).filter
      Relay.isAllowedChar = (name.map Relay.asciiLower).map Relay.underscoreSpaces := by
    apply List.filter_eq_self.mpr
    intro a ha
    simp only [List.map_map, List.mem_map] at ha
    obtain ⟨c, hc, rfl⟩ := ha
    exact (goodChar_comm c (h2 c hc)).2
  unfold Relay.queryTableNameL Relay.sanitizeTableNameL
  rw [hmap, hfilter]
  cases hn : (name.map Relay.asciiLower).map Relay.underscoreSpaces with
  | nil =>
    exfalso
    apply h1
    have := congrArg List.length hn
    simpa using this
  | cons c rest => rfl

theorem c6_query_table_name_agrees_witness :
    Relay.queryTableNameL "Demo Orders".data
      = some (Relay.sanitizeTableNameL "Demo Orders".data) :=
  c6_query_table_name_agrees "Demo Orders".data (by decide) (by decide)

theorem containsSub_iff (pat s : List Char) :
    Relay.containsSub pat s = true ↔ pat <:+: s := by
  induction s with
  | nil =>
    simp [Relay.containsSub, List.infix_nil, List.isEmpty_iff]
  | cons c rest ih =>
    simp only [Relay.containsSub, Bool.or_eq_true, ih,
      List.isPrefixOf_iff_prefix, List.infix_cons_iff]

theorem splitOnSpace_ne_nil (l : List Char) : Relay.splitOnSpace l ≠ [] := by
  induction l with
  | nil => simp [Relay.splitOnSpace]
  | cons c rest ih =>
    simp only [Relay.splitOnSpace]
    by_cases hc : c = ' '
    · simp [hc]
    · rw [if_neg hc]
      cases hsp : Relay.splitOnSpace rest with
      | nil => simp
      | cons w ws => simp

theorem splitOnSpace_head_le :
    ∀ (l w : List Char) (ws : List (List Char)),
      Relay.splitOnSpace l = w :: ws → w <+: l := by
  intro l
  induction l with
  | nil =>
    intro w ws h
    simp only [Relay.splitOnSpace] at h
    injection h with h1 _
    subst h1
    exact List.nil_prefix
  | cons c rest ih =>
    intro w ws h
    simp only [Relay.splitOnSpace] at h
    by_cases hc : c = ' '
    · rw [if_pos hc] at h
      injection h with h1 _
      subst h1
      exact List.nil_prefix
    · rw [if_neg hc] at h
      cases hsp : Relay.splitOnSpace rest with
      | nil => exact absurd hsp (splitOnSpace_ne_nil rest)
      | cons w0 ws0 =>
        rw [hsp] at h
        injection h with h1 _
        subst h1
        exact (List.cons_prefix_cons).mpr ⟨rfl, ih w0 ws0 hsp⟩

theorem splitOnSpace_sound :
    ∀ (l w : List Char), w ∈ Relay.splitOnSpace l → w <:+: l := by
  intro l
  induction l with
  | nil =>
    intro w hw
    simp [Relay.splitOnSpace] at hw
    simp [hw]
  | cons c rest ih =>
    intro w hw
    simp only [Relay.splitOnSpace] at hw
    by_cases hc : c = ' '
    · rw [if_pos hc] at hw
      rcases List.mem_cons.mp hw with rfl | hw
      · exact ⟨[], c :: rest, by simp⟩
      · obtain ⟨s, t, hst⟩ := ih w hw
        exact ⟨c :: s, t, by simp [hst]⟩
    · rw [if_neg hc] at hw
      cases hsp : Relay.splitOnSpace rest with
      | nil => exact absurd hsp (splitOnSpace_ne_nil rest)
      | cons w0 ws0 =>
        rw [hsp] at hw
        rcases List.mem_cons.mp hw with rfl | hw
        · have hp : (c :: w0) <+: (c :: rest) :=
            (List.cons_prefix_cons).mpr ⟨rfl, splitOnSpace_head_le rest w0 ws0 hsp⟩
          exact hp.isInfix
        · obtain ⟨s, t, hst⟩ := ih w (hsp ▸ List.mem_cons_of_mem w0 hw)
          exact ⟨c :: s, t, by simp [hst]⟩

/-- C8 counterexample: `"SELECT delimited FROM t"` has no `LIMIT` clause
(no whitespace-delimited `LIMIT` word), yet `execute_query` leaves it
unchanged instead of appending `LIMIT 100`, because the code only checks
for `LIMIT` as a case-insensitive substring and `DELIMITED` contains it. -/
theorem c8_limit_counterexample :
    ¬ Relay.hasLimitWord "SELECT delimited FROM t".data ∧
    Relay.limited_sql "SELECT delimited FROM t".data 100
      = "SELECT delimited FROM t".data ∧
    Relay.limited_sql "SELECT delimited FROM t".data 100
      ≠ "SELECT delimited FROM t".data ++ (" LIMIT ".data ++ (Nat.repr 100).data) := by
  refine ⟨by decide, by decide, by decide⟩

/-- C8 (amended): `execute_query` decides whether to append by testing
whether `LIMIT` occurs as a case-insensitive *substring* of the SQL: any
SQL containing a genuine `LIMIT` word is executed unchanged, and any SQL in
which `LIMIT` does not occur even as a substring is executed with
`" LIMIT <row_limit>"` appended; but SQL containing `LIMIT` only inside a
longer word (for example `delimited`) is also left unchanged. -/
theorem c8_limit_append (sql : List Char) (n : Nat) :
    (Relay.hasLimitWord sql → Relay.limited_sql sql n = sql) ∧
    (¬ "LIMIT".data <:+: Relay.upperL sql →
      Relay.limited_sql sql n = sql ++ (" LIMIT ".data ++ (Nat.repr n).data)) := by
  constructor
  · intro h
    have hinf : "LIMIT".data <:+: Relay.upperL sql :=
      splitOnSpace_sound (Relay.upperL sql) _ h
    unfold Relay.limited_sql
    rw [if_pos ((containsSub_iff _ _).mpr hinf)]
  · intro h
    unfold Relay.limited_sql
    rw [if_neg (fun hc => h ((containsSub_iff _ _).mp hc))]

theorem c8_limit_append_witness :
    Relay.limited_sql "SELECT a FROM t LIMIT 5".data 10
      = "SELECT a FROM t LIMIT 5".data ∧
    Relay.limited_sql "SELECT a FROM t".data 10
      = "SELECT a FROM t".data ++ (" LIMIT ".data ++ (Nat.repr 10).data) :=
  ⟨(c8_limit_append "SELECT a FROM t LIMIT 5".data 10).1 (by decide),
   (c8_limit_append "SELECT a FROM t".data 10).2 (by decide)⟩

theorem maskFrom_involutive (key iv : Nat) :
    ∀ (l : List Nat) (i : Nat),
      Relay.maskFrom key iv i (Relay.maskFrom key iv i l) = l := by
  intro l
  induction l with
  | nil => intro i; rfl
  | cons b rest ih =>
    intro i
    simp only [Relay.maskFrom, ih (i + 1), List.cons.injEq, and_true]
    rw [Nat.xor_assoc, Nat.xor_self, Nat.xor_zero]

/-- C7: encryption round-trips and is IV-randomized: with a configured key,
decrypting any token produced by `encrypt` returns the original plaintext,
and encrypting the same plaintext under two distinct (fresh random) IVs
yields distinct ciphertexts. -/
theorem c7_encrypt_round_trip (key iv iv' : Nat) (x t : List Nat) :
    (Relay.encrypt (some key) iv x = .ok t →
      Relay.decrypt (some key) t = .ok x) ∧
    (iv ≠ iv' →
      Relay.encrypt (some key) iv x ≠ Relay.encrypt (some key) iv' x) := by
  constructor
  · intro h
    have ht : t = Relay.fernetEncrypt key iv x := by
      simpa [Relay.encrypt] using h.symm
    subst ht
    show Relay.fernetDecrypt key (Relay.fernetEncrypt key iv x) = .ok x
    unfold Relay.fernetEncrypt
    simp [Relay.fernetDecrypt, List.getLast?_concat, List.dropLast_concat,
      maskFrom_involutive]
  · intro hne h
    apply hne
    have h' : Relay.fernetEncrypt key iv x = Relay.fernetEncrypt key iv' x := by
      simpa [Relay.encrypt] using h
    have h2 := congrArg List.head? h'
    simpa [Relay.fernetEncrypt] using h2

theorem c7_encrypt_round_trip_witness :
    Relay.decrypt (some 5) (Relay.fernetEncrypt 5 3 [1, 2, 250])
      = .ok [1, 2, 250] ∧
    Relay.encrypt (some 5) 3 [1, 2, 250] ≠ Relay.encrypt (some 5) 4 [1, 2, 250] :=
  ⟨(c7_encrypt_round_trip 5 3 4 [1, 2, 250] (Relay.fernetEncrypt 5 3 [1, 2, 250])).1 rfl,
   (c7_encrypt_round_trip 5 3 4 [1, 2, 250] (Relay.fernetEncrypt 5 3 [1, 2, 250])).2
     (by decide)⟩

/-- C9: with authentication required, a gate at minimum role `R` admits
exactly the active stored keys of level ≥ level(R) under
reader(0) < writer(1) < admin(2): a missing header is rejected 401, a raw
key matching no active stored key is rejected 403, an admitted record is
an active stored key matching the raw key's hash, and a matching active
key passes iff its role level reaches the minimum (else 403
"Insufficient permissions"). -/
theorem c9_role_gate (minRole : String) (keys : List Relay.APIKeyRec)
    (ml : Nat) (hRole : Relay.roleLevelOf minRole = some ml) :
    (Relay.require_role minRole true keys none
      = .err 401 "Missing API key. Provide X-API-Key header.") ∧
    (∀ raw, Relay.get_api_key_record keys raw = none →
      Relay.require_role minRole true keys (some raw)
        = .err 403 "Invalid or revoked API key.") ∧
    (∀ raw rec, Relay.get_api_key_record keys raw = some rec →
      rec ∈ keys ∧ rec.active = true ∧ rec.key_hash = Relay.hashKey raw ∧
      (ml ≤ Relay.roleLevelD rec.role →
        Relay.require_role minRole true keys (some raw) = .ok raw) ∧
      (Relay.roleLevelD rec.role < ml →
        Relay.require_role minRole true keys (some raw)
          = .err 403 ("Insufficient permissions. Requires '" ++ minRole
              ++ "' role or higher."))) := by
  refine ⟨?_, ?_, ?_⟩
  · simp [Relay.require_role, hRole]
  · intro raw hnone
    simp [Relay.require_role, hRole, hnone]
  · intro raw rec hrec
    have hmem : rec ∈ keys := List.mem_of_find?_eq_some hrec
    have hp := List.find?_some hrec
    simp only [Bool.and_eq_true, beq_iff_eq] at hp
    refine ⟨hmem, hp.2, hp.1, ?_, ?_⟩
    · intro hle
      simp [Relay.require_role, hRole, hrec, Nat.not_lt.mpr hle]
    · intro hlt
      simp [Relay.require_role, hRole, hrec, hlt]

theorem c9_role_gate_witness :
    (Relay.require_role "writer" true
        [⟨Relay.hashKey "rk", "reader", true⟩, ⟨Relay.hashKey "ak", "admin", true⟩]
        none = .err 401 "Missing API key. Provide X-API-Key header.") ∧
    (Relay.require_role "writer" true
        [⟨Relay.hashKey "rk", "reader", true⟩, ⟨Relay.hashKey "ak", "admin", true⟩]
        (some "nokey") = .err 403 "Invalid or revoked API key.") ∧
    (Relay.require_role "writer" true
        [⟨Relay.hashKey "rk", "reader", true⟩, ⟨Relay.hashKey "ak", "admin", true⟩]
        (some "ak") = .ok "ak") ∧
    (Relay.require_role "writer" true
        [⟨Relay.hashKey "rk", "reader", true⟩, ⟨Relay.hashKey "ak", "admin", true⟩]
        (some "rk")
      = .err 403 "Insufficient permissions. Requires 'writer' role or higher.") := by
  have h := c9_role_gate "writer"
    [⟨Relay.hashKey "rk", "reader", true⟩, ⟨Relay.hashKey "ak", "admin", true⟩]
    1 rfl
  refine ⟨h.1, h.2.1 "nokey" (by decide), ?_, ?_⟩
  · exact ((h.2.2 "ak" ⟨Relay.hashKey "ak", "admin", true⟩ (by decide)).2.2.2.1
      (by decide))
  · exact ((h.2.2 "rk" ⟨Relay.hashKey "rk", "reader", true⟩ (by decide)).2.2.2.2
      (by decide))


theorem setRunField_keeps_ids (r : Relay.Run) (k : String) (v : Relay.Val) :
    (Relay.setRunField r k v).run_id = r.run_id ∧
    (Relay.setRunField r k v).pipeline_id = r.pipeline_id := by
  unfold Relay.setRunField
  split_ifs <;> exact ⟨rfl, rfl⟩

theorem setAssoc_find_ne (cols : List (String × Relay.Val)) (k : String)
    (v : Relay.Val) (key : String) (h : k ≠ key) :
    (Relay.setAssoc cols k v).find? (fun kv => kv.1 == key)
      = cols.find? (fun kv => kv.1 == key) := by
  induction cols with
  | nil =>
    simp [Relay.setAssoc, List.find?, beq_eq_false_iff_ne.mpr h]
  | cons kv' rest ih =>
    obtain ⟨k', v'⟩ := kv'
    by_cases hk : k' = k
    · subst hk
      simp only [Relay.setAssoc, if_pos rfl]
      have hne : (k' == key) = false := beq_eq_false_iff_ne.mpr h
      simp [List.find?, hne]
    · simp only [Relay.setAssoc, if_neg hk]
      by_cases hkey : k' = key
      · subst hkey
        simp [List.find?]
      · have hne : (k' == key) = false := beq_eq_false_iff_ne.mpr hkey
        simp [List.find?, hne, ih]

theorem setRunField_frame (r : Relay.Run) (k : String) (v : Relay.Val)
    (key : String) (h : k ≠ key) :
    Relay.runField (Relay.setRunField r k v) key = Relay.runField r key := by
  unfold Relay.setRunField Relay.runField
  split_ifs with h1 h2 h3
  · subst h1; simp [setAssoc_find_ne r.cols "files_written" v key h]
  · rfl
  · simp [setAssoc_find_ne r.cols k v key h]
  · rfl

theorem applyUpdates_keeps_ids (updates : List (String × Relay.Val)) :
    ∀ r : Relay.Run,
      (Relay.applyUpdates r updates).run_id = r.run_id ∧
      (Relay.applyUpdates r updates).pipeline_id = r.pipeline_id := by
  induction updates with
  | nil => intro r; exact ⟨rfl, rfl⟩
  | cons kv tl ih =>
    intro r
    have hstep := setRunField_keeps_ids r kv.1 kv.2
    have htl := ih (Relay.setRunField r kv.1 kv.2)
    unfold Relay.applyUpdates at htl ⊢
    rw [List.foldl_cons]
    exact ⟨htl.1.trans hstep.1, htl.2.trans hstep.2⟩

theorem applyUpdates_frame (updates : List (String × Relay.Val)) :
    ∀ (r : Relay.Run) (key : String), (∀ kv ∈ updates, kv.1 ≠ key) →
      Relay.runField (Relay.applyUpdates r updates) key = Relay.runField r key := by
  induction updates with
  | nil => intro r key _; rfl
  | cons kv tl ih =>
    intro r key hk
    unfold Relay.applyUpdates at ih ⊢
    rw [List.foldl_cons]
    rw [ih (Relay.setRunField r kv.1 kv.2) key
      (fun kv' h' => hk kv' (List.mem_cons_of_mem kv h'))]
    exact setRunField_frame r kv.1 kv.2 key (hk kv (List.mem_cons_self kv tl))

/-- C3 counterexample: a run row whose status is already terminal
(`success`) is freely mutated by a later `update_run`: the run table
changes and the modified row is returned.  `update_run` performs no check
of the current status (storage.py lines 129-145). -/
theorem c3_update_run_counterexample :
    Relay.runField Relay.sampleTerminalRun "status" = some (.vstr "success") ∧
    (Relay.update_run [Relay.sampleTerminalRun] "pipe-1" "run-1"
        [("progress", Relay.Val.vstr "edited")]).2 ≠ [Relay.sampleTerminalRun] ∧
    (Relay.update_run [Relay.sampleTerminalRun] "pipe-1" "run-1"
        [("progress", Relay.Val.vstr "edited")]).1
      = some { Relay.sampleTerminalRun with
          cols := Relay.setAssoc Relay.sampleTerminalRun.cols "progress"
            (Relay.Val.vstr "edited") } := by
  refine ⟨rfl, by decide, by decide⟩

/-- C3 (amended): `update_run` never refuses an update based on the run's
status: even when the matched run is terminal (`success` or `failed`), the
updates are applied to the stored row and the modified row is returned.
Terminal-status immutability is not enforced by the store. -/
theorem c3_update_run_no_terminal_guard (r : Relay.Run) (p : String)
    (hterm : Relay.runField r "status" = some (.vstr "success") ∨
      Relay.runField r "status" = some (.vstr "failed")) :
    Relay.update_run [r] r.pipeline_id r.run_id [("progress", Relay.Val.vstr p)]
      = (some { r with cols := Relay.setAssoc r.cols "progress" (Relay.Val.vstr p) },
         [{ r with cols := Relay.setAssoc r.cols "progress" (Relay.Val.vstr p) }]) := by
  have hset : Relay.setRunField r "progress" (Relay.Val.vstr p)
      = { r with cols := Relay.setAssoc r.cols "progress" (Relay.Val.vstr p) } := by
    unfold Relay.setRunField
    rw [if_neg (by decide), if_neg (by decide), if_pos (by decide)]
  simp [Relay.update_run, Relay.applyUpdates, hset]

theorem c3_update_run_no_terminal_guard_witness :
    Relay.update_run [Relay.sampleTerminalRun] Relay.sampleTerminalRun.pipeline_id
      Relay.sampleTerminalRun.run_id [("progress", Relay.Val.vstr "edited")]
      = (some { Relay.sampleTerminalRun with
            cols := Relay.setAssoc Relay.sampleTerminalRun.cols "progress"
              (Relay.Val.vstr "edited") },
         [{ Relay.sampleTerminalRun with
            cols := Relay.setAssoc Relay.sampleTerminalRun.cols "progress"
              (Relay.Val.vstr "edited") }]) :=
  c3_update_run_no_terminal_guard Relay.sampleTerminalRun "edited" (Or.inl rfl)

/-- C10: `update_run` never re-keys a run.  For every updates dict —
including one containing `run_id` or `pipeline_id` keys — the updated
row keeps the original `run_id` and `pipeline_id` (those keys are
explicitly skipped), columns whose names are not in the dict are
unchanged, and every row returned by `update_run` is a stored row with
exactly the updates applied. -/
theorem c10_update_run_never_rekeys (updates : List (String × Relay.Val)) :
    (∀ r : Relay.Run,
      (Relay.applyUpdates r updates).run_id = r.run_id ∧
      (Relay.applyUpdates r updates).pipeline_id = r.pipeline_id) ∧
    (∀ (r : Relay.Run) (key : String), (∀ kv ∈ updates, kv.1 ≠ key) →
      Relay.runField (Relay.applyUpdates r updates) key = Relay.runField r key) ∧
    (∀ (runs : List Relay.Run) (pid rid : String) (r' : Relay.Run),
      (Relay.update_run runs pid rid updates).1 = some r' →
      ∃ r0 ∈ runs, r' = Relay.applyUpdates r0 updates) := by
  refine ⟨applyUpdates_keeps_ids updates, applyUpdates_frame updates, ?_⟩
  intro runs
  induction runs with
  | nil => intro pid rid r' h; simp [Relay.update_run] at h
  | cons r rest ih =>
    intro pid rid r' h
    unfold Relay.update_run at h
    by_cases hmatch : r.pipeline_id = pid ∧ r.run_id = rid
    · rw [if_pos hmatch] at h
      simp only [Option.some.injEq] at h
      exact ⟨r, List.mem_cons_self r rest, h.symm⟩
    · rw [if_neg hmatch] at h
      obtain ⟨r0, hr0, heq⟩ := ih pid rid r' h
      exact ⟨r0, List.mem_cons_of_mem r hr0, heq⟩

theorem c10_update_run_never_rekeys_witness :
    (Relay.applyUpdates Relay.sampleTerminalRun
        [("run_id", Relay.Val.vstr "X"), ("pipeline_id", Relay.Val.vstr "Y"),
         ("status", Relay.Val.vstr "failed")]).run_id
      = Relay.sampleTerminalRun.run_id ∧
    Relay.runField (Relay.applyUpdates Relay.sampleTerminalRun
        [("run_id", Relay.Val.vstr "X"), ("pipeline_id", Relay.Val.vstr "Y"),
         ("status", Relay.Val.vstr "failed")]) "progress"
      = Relay.runField Relay.sampleTerminalRun "progress" ∧
    ∃ r0 ∈ [Relay.sampleTerminalRun],
      Relay.applyUpdates Relay.sampleTerminalRun
        [("run_id", Relay.Val.vstr "X"), ("pipeline_id", Relay.Val.vstr "Y"),
         ("status", Relay.Val.vstr "failed")] = Relay.applyUpdates r0
        [("run_id", Relay.Val.vstr "X"), ("pipeline_id", Relay.Val.vstr "Y"),
         ("status", Relay.Val.vstr "failed")] :=
  ⟨((c10_update_run_never_rekeys _).1 Relay.sampleTerminalRun).1,
   (c10_update_run_never_rekeys _).2.1 Relay.sampleTerminalRun "progress" (by decide),
   (c10_update_run_never_rekeys _).2.2 [Relay.sampleTerminalRun] "pipe-1" "run-1"
     _ (by decide)⟩

/-- C4: deleting a connection whose name is referenced by the source
config of at least one pipeline fails with HTTP 409 Conflict and leaves
the store completely unchanged (the 409 is raised before any write). -/
theorem c4_delete_connection_conflict (st : Relay.Store) (cid : String)
    (conn : Relay.Connection) (p : Relay.Pipeline)
    (hfind : st.connections.find? (fun c => c.id == cid) = some conn)
    (hp : p ∈ st.pipelines) (href : p.source_connection = some conn.name) :
    (∃ d, (Relay.delete_connection st cid).1 = .error ⟨409, d⟩) ∧
    (Relay.delete_connection st cid).2 = st := by
  have hmem : p ∈ Relay.list_pipelines_using_connection st.pipelines conn.name := by
    unfold Relay.list_pipelines_using_connection
    exact List.mem_filter.mpr ⟨hp, by simp [href]⟩
  have hne : Relay.list_pipelines_using_connection st.pipelines conn.name ≠ [] :=
    List.ne_nil_of_mem hmem
  unfold Relay.delete_connection
  rw [hfind]
  simp only [if_neg hne]
  exact ⟨⟨_, rfl⟩, trivial⟩

theorem c4_delete_connection_conflict_witness :
    (∃ d, (Relay.delete_connection
        ⟨[⟨"conn-1", "mydb"⟩], [⟨"pipe-1", "Orders", some "mydb"⟩]⟩
        "conn-1").1 = .error ⟨409, d⟩) ∧
    (Relay.delete_connection
        ⟨[⟨"conn-1", "mydb"⟩], [⟨"pipe-1", "Orders", some "mydb"⟩]⟩
        "conn-1").2
      = ⟨[⟨"conn-1", "mydb"⟩], [⟨"pipe-1", "Orders", some "mydb"⟩]⟩ :=
  c4_delete_connection_conflict
    ⟨[⟨"conn-1", "mydb"⟩], [⟨"pipe-1", "Orders", some "mydb"⟩]⟩
    "conn-1" ⟨"conn-1", "mydb"⟩ ⟨"pipe-1", "Orders", some "mydb"⟩
    (by decide) (by decide) rfl

/-- C2 counterexample: the touched set `{orders, customers}` with *no*
relationship between them — `customers` is unreachable from the BFS root —
does not fail at all: `_build_join_graph` returns the bare root table
`orders_t`, silently omitting `customers` from the FROM/JOIN chain.  A
three-entity variant shows the reachable entity joined and the unreachable
one (`c`) still silently dropped. -/
theorem c2_build_join_graph_counterexample :
    Relay.build_join_graph ["orders", "customers"] []
      [("orders", "orders_t"), ("customers", "customers_t")]
      = .ok "orders_t" ∧
    Relay.build_join_graph ["a", "b", "c"] [⟨"a", "b", "b_id", "id"⟩]
      [("a", "ta"), ("b", "tb"), ("c", "tc")]
      = .ok "ta LEFT JOIN tb ON ta.b_id = tb.id" := by
  exact ⟨rfl, rfl⟩

/-- C2 (amended): `_build_join_graph` never fails on unreachable touched
entities: for every nonempty touched set it returns a FROM/JOIN clause
(the only error in the function is the empty touched set).  Unreachable
entities are silently omitted; no `DisconnectedOntology` error exists in
the code path. -/
theorem c2_build_join_graph_total (entityNames : List String)
    (rels : List Relay.Rel) (tmap : List (String × String))
    (h : entityNames ≠ []) :
    ∃ s, Relay.build_join_graph entityNames rels tmap = .ok s := by
  match entityNames with
  | [] => exact absurd rfl h
  | [e] => exact ⟨_, rfl⟩
  | e1 :: e2 :: rest => exact ⟨_, rfl⟩

theorem c2_build_join_graph_total_witness :
    ∃ s, Relay.build_join_graph ["orders", "customers"] []
      [("orders", "orders_t"), ("customers", "customers_t")] = .ok s :=
  c2_build_join_graph_total ["orders", "customers"] []
    [("orders", "orders_t"), ("customers", "customers_t")] (by decide)

theorem tokenFold_error (fuel : Nat) (metrics : List Relay.Metric)
    (ts : List (List Char)) (e : Relay.SemErr) :
    ts.foldl (fun (acc : Except Relay.SemErr (List Char × List String))
        (t : List Char) =>
      match acc with
      | .error e => .error e
      | .ok (cur, sn) =>
        match Relay.resolveMetricF fuel ⟨t⟩ metrics sn with
        | .error e => .error e
        | .ok (texpr, _, sn2) =>
          .ok (Relay.replaceAll cur ('$' :: '{' :: t ++ ['}'])
                ('(' :: texpr.data ++ [')']), sn2))
      (.error e) = .error e := by
  induction ts with
  | nil => rfl
  | cons t ts ih => simpa using ih

theorem tokenFold_eq_resolveTokens (fuel : Nat) (metrics : List Relay.Metric) :
    ∀ (ts : List (List Char)) (cur : List Char) (seen : List String),
      ts.foldl (fun (acc : Except Relay.SemErr (List Char × List String))
          (t : List Char) =>
        match acc with
        | .error e => .error e
        | .ok (cur, sn) =>
          match Relay.resolveMetricF fuel ⟨t⟩ metrics sn with
          | .error e => .error e
          | .ok (texpr, _, sn2) =>
            .ok (Relay.replaceAll cur ('$' :: '{' :: t ++ ['}'])
                  ('(' :: texpr.data ++ [')']), sn2))
        (.ok (cur, seen))
      = Relay.resolveTokens fuel ts cur metrics seen := by
  intro ts
  induction ts with
  | nil => intro cur seen; rfl
  | cons t ts ih =>
    intro cur seen
    rw [List.foldl_cons]
    cases hres : Relay.resolveMetricF fuel ⟨t⟩ metrics seen with
    | error e =>
      simp only [hres, Relay.resolveTokens]
      exact tokenFold_error fuel metrics ts e
    | ok q =>
      obtain ⟨texpr, ent, seen2⟩ := q
      simp only [hres, Relay.resolveTokens]
      exact ih _ seen2

/-- Unfolding equation for `resolveMetricF` at positive fuel, with the
reference loop expressed through `resolveTokens`. -/
theorem resolveMetricF_succ (fuel : Nat) (name : String)
    (metrics : List Relay.Metric) (seen : List String) :
    Relay.resolveMetricF (fuel + 1) name metrics seen =
      if name ∈ seen then .error (.circular name)
      else
        match Relay.lookupMetric metrics name with
        | none => .error (.unknownMetric name)
        | some m =>
          match Relay.resolveTokens fuel (Relay.findTokens m.expression.data)
              m.expression.data metrics (name :: seen) with
          | .error e => .error e
          | .ok (expr, seen2) => .ok (⟨expr⟩, m.entity_name, seen2) := by
  unfold Relay.resolveMetricF
  simp only [tokenFold_eq_resolveTokens]

theorem length_filter_mono (l : List String) (p q : String → Bool)
    (h : ∀ a ∈ l, p a = true → q a = true) :
    (l.filter p).length ≤ (l.filter q).length := by
  induction l with
  | nil => simp
  | cons a tl ih =>
    have htl := ih (fun b hb => h b (List.mem_cons_of_mem a hb))
    by_cases hpa : p a = true
    · rw [List.filter_cons_of_pos hpa,
        List.filter_cons_of_pos (h a (List.mem_cons_self a tl) hpa)]
      simpa using htl
    · rw [List.filter_cons_of_neg (by simpa using hpa)]
      by_cases hqa : q a = true
      · rw [List.filter_cons_of_pos hqa]
        simp only [List.length_cons]
        omega
      · rw [List.filter_cons_of_neg (by simpa using hqa)]
        exact htl

theorem freeKeys_anti (metrics : List Relay.Metric) (seen seen' : List String)
    (h : ∀ x ∈ seen, x ∈ seen') :
    Relay.freeKeys metrics seen' ≤ Relay.freeKeys metrics seen := by
  apply length_filter_mono
  intro a _ ha
  simp only [decide_eq_true_eq] at ha ⊢
  exact fun hmem => ha (h a hmem)

theorem nodup_filter_cons_lt (l : List String) (hnd : l.Nodup) (name : String)
    (seen : List String) (hmem : name ∈ l) (hns : name ∉ seen) :
    (l.filter (fun k => decide (k ∉ name :: seen))).length <
    (l.filter (fun k => decide (k ∉ seen))).length := by
  induction l with
  | nil => exact absurd hmem (List.not_mem_nil name)
  | cons a tl ih =>
    rcases List.mem_cons.mp hmem with rfl | htl
    · rw [List.filter_cons_of_neg (by simp),
        List.filter_cons_of_pos (by simpa using hns)]
      have hle := length_filter_mono tl
        (fun k => decide (k ∉ name :: seen)) (fun k => decide (k ∉ seen))
        (by
          intro b _ hb
          simp only [decide_eq_true_eq, List.mem_cons] at hb ⊢
          exact fun hmem => hb (Or.inr hmem))
      simp only [List.length_cons]
      omega
    · have hanm : a ≠ name := by
        intro heq
        exact (List.nodup_cons.mp hnd).1 (heq ▸ htl)
      have ihh := ih (List.nodup_cons.mp hnd).2 htl
      by_cases has : a ∈ seen
      · rw [List.filter_cons_of_neg (by simp [has]),
          List.filter_cons_of_neg (by simp [has])]
        exact ihh
      · rw [List.filter_cons_of_pos (by simp [hanm, has]),
          List.filter_cons_of_pos (by simpa using has)]
        simp only [List.length_cons]
        omega

theorem freeKeys_strict (metrics : List Relay.Metric) (name : String)
    (seen : List String) (hk : name ∈ Relay.metricKeys metrics)
    (hns : name ∉ seen) :
    Relay.freeKeys metrics (name :: seen) < Relay.freeKeys metrics seen :=
  nodup_filter_cons_lt (Relay.metricKeys metrics) (List.nodup_dedup _)
    name seen hk hns

/-- The shared visited set only grows: any successful resolution returns a
superset of the set it was given. -/
theorem resolve_seen_mono :
    ∀ fuel : Nat,
      (∀ (name : String) (metrics : List Relay.Metric) (seen : List String)
          (out : String × String × List String),
        Relay.resolveMetricF fuel name metrics seen = .ok out →
        ∀ x ∈ seen, x ∈ out.2.2) ∧
      (∀ (ts : List (List Char)) (cur : List Char)
          (metrics : List Relay.Metric) (seen : List String)
          (out : List Char × List String),
        Relay.resolveTokens fuel ts cur metrics seen = .ok out →
        ∀ x ∈ seen, x ∈ out.2) := by
  intro fuel
  induction fuel with
  | zero =>
    constructor
    · intro name metrics seen out h
      simp [Relay.resolveMetricF] at h
    · intro ts cur metrics seen out h x hx
      cases ts with
      | nil =>
        simp only [Relay.resolveTokens] at h
        cases h
        exact hx
      | cons t ts' =>
        simp [Relay.resolveTokens, Relay.resolveMetricF] at h
  | succ n ih =>
    have hM : ∀ (name : String) (metrics : List Relay.Metric)
        (seen : List String) (out : String × String × List String),
        Relay.resolveMetricF (n + 1) name metrics seen = .ok out →
        ∀ x ∈ seen, x ∈ out.2.2 := by
      intro name metrics seen out h x hx
      rw [resolveMetricF_succ] at h
      by_cases hn : name ∈ seen
      · rw [if_pos hn] at h
        simp at h
      · rw [if_neg hn] at h
        cases hlook : Relay.lookupMetric metrics name with
        | none =>
          simp only [hlook] at h
          exact Except.noConfusion h
        | some m =>
          simp only [hlook] at h
          cases htok : Relay.resolveTokens n (Relay.findTokens m.expression.data)
              m.expression.data metrics (name :: seen) with
          | error e =>
            simp only [htok] at h
            exact Except.noConfusion h
          | ok p =>
            obtain ⟨expr, seen2⟩ := p
            simp only [htok] at h
            have hmono := ih.2 _ _ _ _ _ htok x (List.mem_cons_of_mem name hx)
            cases h
            exact hmono
    refine ⟨hM, ?_⟩
    intro ts
    induction ts with
    | nil =>
      intro cur metrics seen out h x hx
      simp only [Relay.resolveTokens] at h
      cases h
      exact hx
    | cons t ts' ihts =>
      intro cur metrics seen out h x hx
      cases hres : Relay.resolveMetricF (n + 1) ⟨t⟩ metrics seen with
      | error e =>
        simp only [Relay.resolveTokens, hres] at h
        exact Except.noConfusion h
      | ok q =>
        obtain ⟨texpr, ent, seen2⟩ := q
        simp only [Relay.resolveTokens, hres] at h
        exact ihts _ _ _ _ h x (hM ⟨t⟩ metrics seen _ hres x hx)

/-- The fuelled embedding never exhausts its fuel when the fuel exceeds
the number of unvisited metric keys: the Python recursion terminates
because each nested call permanently consumes one metric name. -/
theorem resolve_no_fuel_out :
    ∀ fuel : Nat,
      (∀ (name : String) (metrics : List Relay.Metric) (seen : List String),
        Relay.freeKeys metrics seen + 1 ≤ fuel →
        Relay.resolveMetricF fuel name metrics seen ≠ .error .fuelOut) ∧
      (∀ (ts : List (List Char)) (cur : List Char)
          (metrics : List Relay.Metric) (seen : List String),
        Relay.freeKeys metrics seen + 1 ≤ fuel →
        Relay.resolveTokens fuel ts cur metrics seen ≠ .error .fuelOut) := by
  intro fuel
  induction fuel with
  | zero =>
    constructor
    · intro name metrics seen hb; omega
    · intro ts cur metrics seen hb; omega
  | succ n ih =>
    have hM : ∀ (name : String) (metrics : List Relay.Metric)
        (seen : List String),
        Relay.freeKeys metrics seen + 1 ≤ n + 1 →
        Relay.resolveMetricF (n + 1) name metrics seen ≠ .error .fuelOut := by
      intro name metrics seen hb
      rw [resolveMetricF_succ]
      by_cases hn : name ∈ seen
      · rw [if_pos hn]; simp
      · rw [if_neg hn]
        cases hlook : Relay.lookupMetric metrics name with
        | none => simp
        | some m =>
          have hkey : name ∈ Relay.metricKeys metrics := by
            have hmem := List.mem_of_find?_eq_some hlook
            have hp := List.find?_some hlook
            simp only [beq_iff_eq] at hp
            unfold Relay.metricKeys
            exact List.mem_dedup.mpr (hp ▸ List.mem_map_of_mem (·.name) hmem)
          have hlt := freeKeys_strict metrics name seen hkey hn
          have hb2 : Relay.freeKeys metrics (name :: seen) + 1 ≤ n := by omega
          have htok := ih.2 (Relay.findTokens m.expression.data)
            m.expression.data metrics (name :: seen) hb2
          cases htokr : Relay.resolveTokens n (Relay.findTokens m.expression.data)
              m.expression.data metrics (name :: seen) with
          | error e =>
            intro hc
            simp only [htokr] at hc
            injection hc with he
            exact htok (htokr.trans (by rw [he]))
          | ok p =>
            obtain ⟨expr, seen2⟩ := p
            simp [htokr]
    have hT : ∀ (ts : List (List Char)) (cur : List Char)
        (metrics : List Relay.Metric) (seen : List String),
        Relay.freeKeys metrics seen + 1 ≤ n + 1 →
        Relay.resolveTokens (n + 1) ts cur metrics seen ≠ .error .fuelOut := by
      intro ts
      induction ts with
      | nil =>
        intro cur metrics seen hb
        simp [Relay.resolveTokens]
      | cons t ts' ihts =>
        intro cur metrics seen hb
        cases hres : Relay.resolveMetricF (n + 1) ⟨t⟩ metrics seen with
        | error e =>
          have hne := hM ⟨t⟩ metrics seen hb
          intro hc
          simp only [Relay.resolveTokens, hres] at hc
          injection hc with he
          exact hne (hres.trans (by rw [he]))
        | ok q =>
          obtain ⟨texpr, ent, seen2⟩ := q
          have hsub : ∀ x ∈ seen, x ∈ seen2 :=
            (resolve_seen_mono (n + 1)).1 ⟨t⟩ metrics seen _ hres
          have hb2 : Relay.freeKeys metrics seen2 + 1 ≤ n + 1 := by
            have := freeKeys_anti metrics seen seen2 hsub
            omega
          intro hc
          simp only [Relay.resolveTokens, hres] at hc
          exact ihts _ metrics seen2 hb2 hc
    exact ⟨hM, hT⟩

/-- C1 counterexample: the diamond-shaped metric graph
`m = ${a} + ${b}`, `a = ${c} * 2`, `b = ${c} + 1`, `c = SUM(orders.total)`
is acyclic (no metric can reach itself through `${...}` references), yet
resolving `m` raises CircularMetric on `c`, because the visited set is
shared across sibling expansions: after `a` expands `c`, the expansion of
`b` finds `c` already visited and reports a cycle that does not exist. -/
theorem c1_metric_resolution_counterexample :
    Relay.metricRefAcyclic Relay.diamondMetrics = true ∧
    Relay.resolve_metric "m" Relay.diamondMetrics
      = .error (.circular "c") := by
  exact ⟨by decide, by decide⟩

/-- C1 (amended): metric resolution always terminates (the fuelled
embedding never exhausts the `metrics.length + 1` fuel, mirroring the
strictly growing visited set of the Python recursion), and the visited set
detects every *revisit* rather than every cycle: the genuine two-cycle
`a = ${b}`, `b = ${a}` raises CircularMetric, but so does the acyclic
diamond (shared sub-metric); reference trees without sharing resolve to
the fully expanded expression, e.g.
`aov = ${revenue} / NULLIF(${order_count}, 0)` resolves to
`(SUM(orders.total)) / NULLIF((COUNT(*)), 0)` on entity `orders`. -/
theorem c1_metric_resolution_visited_set :
    (∀ (metrics : List Relay.Metric) (name : String),
      Relay.resolve_metric name metrics ≠ .error .fuelOut) ∧
    Relay.resolve_metric "a" Relay.cyclePairMetrics = .error (.circular "a") ∧
    Relay.resolve_metric "m" Relay.diamondMetrics = .error (.circular "c") ∧
    Relay.resolve_metric "aov" Relay.aovMetrics
      = .ok ("(SUM(orders.total)) / NULLIF((COUNT(*)), 0)", "orders") := by
  refine ⟨?_, by decide, by decide, by decide⟩
  intro metrics name
  have h1 : (Relay.metricKeys metrics).length ≤ metrics.length := by
    have hsub := (List.dedup_sublist (metrics.map (·.name))).length_le
    simpa [Relay.metricKeys] using hsub
  have h2 : Relay.freeKeys metrics [] ≤ (Relay.metricKeys metrics).length :=
    List.length_filter_le _ _
  have hbound : Relay.freeKeys metrics [] + 1 ≤ metrics.length + 1 := by omega
  have hnf := (resolve_no_fuel_out (metrics.length + 1)).1 name metrics [] hbound
  unfold Relay.resolve_metric
  cases hres : Relay.resolveMetricF (metrics.length + 1) name metrics [] with
  | error e =>
    intro hc
    simp only at hc
    injection hc with he
    exact hnf (hres.trans (by rw [he]))
  | ok p =>
    obtain ⟨expr, ent, seen2⟩ := p
    simp

theorem c1_metric_resolution_visited_set_witness :
    Relay.resolve_metric "aov" Relay.aovMetrics ≠ .error .fuelOut :=
  c1_metric_resolution_visited_set.1 Relay.aovMetrics "aov"
